import Mathlib

/-!
Verification of the message-analysis pipeline (src/message-analysis.py).

The script loads three sqlite tables into pandas DataFrames, joins them,
filters rows, classifies conversations as one-on-one or group, and ranks
senders.  This file gives a shallow embedding of the in-memory tables and
of every function the claims mention, translated from the Python source:

* a DataFrame row is a Lean structure; a DataFrame is a `List` of rows;
* a missing (NaN) value is `Option.none`; Python comparison and truthiness
  on possibly-NaN values are modelled explicitly (`pyNe`, `senderTruthy`):
  NaN is truthy, NaN compares unequal to everything including itself,
  and the empty string is falsy;
* a Python dict keyed by possibly-NaN floats is an insertion-ordered
  association list.  A NaN key hashes but never compares equal to a stored
  key, so a lookup of a NaN key always misses and an assignment under a
  NaN key appends a fresh entry; the dict operations below implement
  exactly that behaviour;
* a Python set of chat ids is a duplicate-free `List Nat` (NaN chat ids
  can never reach the `banned_ids.add` call, see `scanStep`).
-/

/-- A row of the message table after the load step, restricted to the
columns selected by `merge_data` in the source.  Timestamps are already
decomposed by the loader; their numeric fields are modelled as `Nat` and
the year-month period as a `String` such as "2022-01". -/
structure Message where
  text : Option String
  handle_id : Nat
  date : Nat
  message_date : Nat
  timestamp : Nat
  month : Nat
  year : Nat
  year_month : String
  hour : Nat
  minute : Nat
  is_sent : Nat
  message_id : Nat
deriving DecidableEq

/-- A row of the handle table after renaming: `ROWID` is `handle_id` and
the contact identity column `id` is `sender`. -/
structure Handle where
  handle_id : Nat
  sender : String
deriving DecidableEq

/-- A row of the chat_message_join table. -/
structure ChatMessageJoin where
  chat_id : Nat
  message_id : Nat
deriving DecidableEq

/-- A row of the joined table produced by `merge_data`.  The two left
joins make `sender` and `chat_id` nullable: `none` is pandas NaN. -/
structure JoinedRow where
  text : Option String
  handle_id : Nat
  date : Nat
  message_date : Nat
  timestamp : Nat
  month : Nat
  year : Nat
  year_month : String
  hour : Nat
  minute : Nat
  is_sent : Nat
  message_id : Nat
  sender : Option String
  chat_id : Option Nat
deriving DecidableEq

/-- A possibly-NaN sender value of the joined table. -/
abbrev SenderVal := Option String

/-- A possibly-NaN chat id of the joined table. -/
abbrev ChatKey := Option Nat

/-- Python truthiness of a sender value: NaN (float) is truthy, a string
is truthy iff it is nonempty. -/
def senderTruthy : SenderVal → Bool
  | none => true
  | some s => decide (s ≠ "")

/-- Python truthiness of the result of `dict.get`: an absent key yields
`None`, which is falsy; a present key yields the stored sender value. -/
def pyTruthy : Option SenderVal → Bool
  | none => false
  | some v => senderTruthy v

/-- The Python `!=` on two possibly-NaN sender values: NaN compares
unequal to everything, including another NaN; strings compare by value. -/
def pyNe : SenderVal → SenderVal → Bool
  | some a, some b => decide (a ≠ b)
  | _, _ => true

/-- Lookup in the `ids_to_senders` dict.  A NaN key (`none`) never
compares equal to a stored key, so its lookup always misses. -/
def chatLookup : List (ChatKey × SenderVal) → ChatKey → Option SenderVal
  | _, none => none
  | [], some _ => none
  | e :: rest, some c => if e.1 = some c then some e.2 else chatLookup rest (some c)

/-- Replace the value stored under a (non-NaN) chat key, keeping the
entry at its original position, as a Python dict assignment does. -/
def chatReplace : List (ChatKey × SenderVal) → Nat → SenderVal → List (ChatKey × SenderVal)
  | [], _, _ => []
  | e :: rest, c, v =>
    if e.1 = some c then (e.1, v) :: chatReplace rest c v
    else e :: chatReplace rest c v

/-- Assignment `ids_to_senders[chat_id] = sender`.  A NaN key never
matches an existing entry, so it always appends a fresh entry; a non-NaN
key overwrites in place when present and appends otherwise. -/
def chatAssign (d : List (ChatKey × SenderVal)) (key : ChatKey) (v : SenderVal) :
    List (ChatKey × SenderVal) :=
  match key with
  | none => d ++ [(none, v)]
  | some c =>
    if (chatLookup d (some c)).isSome then chatReplace d c v
    else d ++ [(some c, v)]

/-- Add a chat id to the `banned_ids` set.  Only non-NaN ids can reach the
`add` call (a NaN key's lookup always misses, taking the recording
branch), so the set holds plain `Nat` ids. -/
def bannedInsert (b : List Nat) : ChatKey → List Nat
  | none => b
  | some c => if c ∈ b then b else b ++ [c]

/-- State of the classifier scan shared (verbatim, lines 84-92 and
106-114 of the source) by `get_dm_chat_ids` and `get_group_chat_ids`. -/
structure ScanState where
  ids_to_senders : List (ChatKey × SenderVal)
  banned_ids : List Nat
deriving DecidableEq

/-- One iteration of the classifier loop:

if not ids_to_senders.get(chat_id): ids_to_senders[chat_id] = sender
elif ids_to_senders[chat_id] != sender: banned_ids.add(chat_id) -/
def scanStep (st : ScanState) (r : JoinedRow) : ScanState :=
  if pyTruthy (chatLookup st.ids_to_senders r.chat_id) = false then
    { st with ids_to_senders := chatAssign st.ids_to_senders r.chat_id r.sender }
  else if pyNe ((chatLookup st.ids_to_senders r.chat_id).getD none) r.sender then
    { st with banned_ids := bannedInsert st.banned_ids r.chat_id }
  else st

/-- The whole classifier scan over the rows of the joined table. -/
def scanTable (t : List JoinedRow) : ScanState :=
  t.foldl scanStep ⟨[], []⟩

/-- Source function `get_group_chat_ids`: the banned set after the scan. -/
def get_group_chat_ids (t : List JoinedRow) : List Nat :=
  (scanTable t).banned_ids

/-- The `ids_to_senders` dict of `get_dm_chat_ids` after the loop
`for id in banned_ids: del ids_to_senders[id]` has removed every banned
id (NaN keys are never banned, hence never deleted). -/
def dm_entries (t : List JoinedRow) : List (ChatKey × SenderVal) :=
  (scanTable t).ids_to_senders.filter fun e =>
    match e.1 with
    | some c => decide (c ∉ (scanTable t).banned_ids)
    | none => true

/-- Replace the chat id stored under a string sender key of the inverted
dict, keeping positions, as a Python dict assignment does. -/
def senderReplace : List (SenderVal × ChatKey) → String → ChatKey → List (SenderVal × ChatKey)
  | [], _, _ => []
  | e :: rest, s, id =>
    if e.1 = some s then (e.1, id) :: senderReplace rest s id
    else e :: senderReplace rest s id

/-- First chat id stored under the string sender key of the inverted
dict; NaN keys never compare equal to a string, so they are skipped. -/
def senderLookup : List (SenderVal × ChatKey) → String → Option ChatKey
  | [], _ => none
  | e :: rest, s => if e.1 = some s then some e.2 else senderLookup rest s

/-- Assignment under a sender key during the inversion
`{sender: id for id, sender in ids_to_senders.items()}`: a NaN sender key
appends a fresh entry, a string key overwrites in place when present. -/
def senderAssign (d : List (SenderVal × ChatKey)) (s : SenderVal) (id : ChatKey) :
    List (SenderVal × ChatKey) :=
  match s with
  | none => d ++ [(none, id)]
  | some str =>
    if (senderLookup d str).isSome then senderReplace d str id
    else d ++ [(some str, id)]

/-- Source function `get_dm_chat_ids`: scan, delete banned ids, then
invert the surviving id-to-sender entries into a sender-to-id dict. -/
def get_dm_chat_ids (t : List JoinedRow) : List (SenderVal × ChatKey) :=
  (dm_entries t).foldl (fun acc e => senderAssign acc e.2 e.1) []

/-- The regex `@|^\+|^\d` of `remove_no_contact_senders`, applied by
`str.contains` (an unanchored search): an `@` anywhere, or a leading `+`,
or a leading decimal digit. -/
def matches_noncontact (s : String) : Bool :=
  s.toList.contains '@' ||
    (match s.toList with
     | [] => false
     | c :: _ => c == '+' || c.isDigit)

/-- Source function `remove_no_contact_senders`:
`df_messages[~df_messages["sender"].str.contains("@|^\+|^\d")]`.
On a table with a NaN sender, `str.contains` yields an object-dtype mask
containing NaN, and the `~` operator applies Python `~` elementwise,
which fails on a float NaN; so the call raises a TypeError.  Without
NaN senders the mask is boolean and the rows matching the regex are
dropped. -/
def remove_no_contact_senders (t : List JoinedRow) : Except String (List JoinedRow) :=
  if t.any (fun r => r.sender.isNone) then
    Except.error ("TypeError: bad operand type for unary ~: float")
  else
    Except.ok (t.filter fun r =>
      match r.sender with
      | none => true
      | some s => !(matches_noncontact s))

/-- Source function `filter_groups`:
`df_messages[~df_messages["chat_id"].isin(banned_ids)]`.  A NaN chat id
is never `isin` a set, so its row is kept by the negated mask. -/
def filter_groups (t : List JoinedRow) : List JoinedRow :=
  t.filter fun r =>
    match r.chat_id with
    | none => true
    | some c => decide (c ∉ get_group_chat_ids t)

/-- Source function `filter_funusha`: `~(df_messages["chat_id"] == 12)`.
NaN compares unequal to 12, so a NaN chat id row is kept. -/
def filter_funusha (t : List JoinedRow) : List JoinedRow :=
  t.filter fun r =>
    match r.chat_id with
    | none => true
    | some c => decide (c ≠ 12)

/-- Source function `single_chat`: `df_messages[df_messages["chat_id"] == chat_id]`.
NaN compares unequal to the requested id, so a NaN chat id row is dropped. -/
def single_chat (t : List JoinedRow) (chat_id : Nat) : List JoinedRow :=
  t.filter fun r =>
    match r.chat_id with
    | none => false
    | some c => decide (c = chat_id)

/-- Build one joined row from a message, its (possibly missing) matched
sender and its (possibly missing) matched chat id. -/
def joinRow (m : Message) (s : Option String) (c : Option Nat) : JoinedRow :=
  ⟨m.text, m.handle_id, m.date, m.message_date, m.timestamp, m.month, m.year,
    m.year_month, m.hour, m.minute, m.is_sent, m.message_id, s, c⟩

/-- First merge of `merge_data`: left join of the selected message
columns to the handles on `handle_id`.  Each message row is paired with
every matching handle, or with NaN when no handle matches. -/
def merge_level_1 (messages : List Message) (handles : List Handle) :
    List (Message × Option String) :=
  messages.flatMap fun m =>
    let hs := handles.filter fun h => decide (h.handle_id = m.handle_id)
    if hs.isEmpty then [(m, none)] else hs.map fun h => (m, some h.sender)

/-- Source function `merge_data`: the first merge followed by a left
join to `chat_message_join` on `message_id`.  Each intermediate row is
repeated once per matching membership link, or kept once with a NaN
chat id when no link matches. -/
def merge_data (messages : List Message) (handles : List Handle)
    (chat_message_joins : List ChatMessageJoin) : List JoinedRow :=
  (merge_level_1 messages handles).flatMap fun p =>
    let cs := chat_message_joins.filter fun c => decide (c.message_id = p.1.message_id)
    if cs.isEmpty then [joinRow p.1 p.2 none]
    else cs.map fun c => joinRow p.1 p.2 (some c.chat_id)

/-- An entry of the grouped-and-counted table of
`get_top_senders_by_month`: a (year-month, sender) key with its message
count. -/
abbrev MonthEntry := (String × String) × Nat

/-- The (year-month, sender) group keys occurring in the table.  Pandas
`groupby` drops rows whose key contains NaN, so rows with a NaN sender
contribute no key; `year_month` is derived from the timestamp and never
NaN. -/
def aggKeys (rows : List JoinedRow) : List (String × String) :=
  rows.filterMap fun r => r.sender.map fun s => (r.year_month, s)

/-- Strict code-point lexicographic order on character lists: the order
Python string comparison uses, written as an executable recursion. -/
def charListLtB : List Char → List Char → Bool
  | [], [] => false
  | [], _ :: _ => true
  | _ :: _, [] => false
  | a :: as, b :: bs =>
    if a.toNat < b.toNat then true
    else if b.toNat < a.toNat then false
    else charListLtB as bs

/-- Python strict `<` on strings: code-point lexicographic. -/
def pyStrLt (a b : String) : Prop := charListLtB a.data b.data = true

/-- Python `<=` on strings, expressed as the complement of the reverse
strict comparison. -/
def pyStrLe (a b : String) : Prop := charListLtB b.data a.data = false

instance : DecidableRel pyStrLt := fun a b => by unfold pyStrLt; exact inferInstance

instance : DecidableRel pyStrLe := fun a b => by unfold pyStrLe; exact inferInstance

/-- Ascending lexicographic order on group keys, the order in which
pandas `groupby` emits its groups. -/
def keyLe (a b : String × String) : Prop :=
  pyStrLt a.1 b.1 ∨ (a.1 = b.1 ∧ pyStrLe a.2 b.2)

instance : DecidableRel keyLe := fun a b => by unfold keyLe; exact inferInstance

/-- The grouped table `df.groupby(["year_month", "sender"]).agg({"message_id": "count"})`:
one entry per distinct key, keys sorted ascending, each with the number
of rows carrying that key (`message_id` is never NaN, so `count` counts
the rows). -/
def groupCounts (rows : List JoinedRow) : List MonthEntry :=
  (List.insertionSort keyLe (aggKeys rows).dedup).map fun k => (k, (aggKeys rows).count k)

/-- The sort key of `sort_values(["year_month", "message_id"], ascending=[True, False])`:
year-month ascending, then count descending.  Pandas sorts on several
columns with a stable lexsort, modelled by a stable insertion sort. -/
def entryLe2 (a b : MonthEntry) : Prop :=
  pyStrLt a.1.1 b.1.1 ∨ (a.1.1 = b.1.1 ∧ b.2 ≤ a.2)

instance : DecidableRel entryLe2 := fun a b => by unfold entryLe2; exact inferInstance

/-- The fully determined order the stable sort actually produces on the
grouped table: year-month ascending, count descending, ties left in the
grouped table's key order, i.e. sender ascending. -/
def entryLe3 (a b : MonthEntry) : Prop :=
  pyStrLt a.1.1 b.1.1 ∨ (a.1.1 = b.1.1 ∧ (b.2 < a.2 ∨ (a.2 = b.2 ∧ pyStrLe a.1.2 b.1.2)))

instance : DecidableRel entryLe3 := fun a b => by unfold entryLe3; exact inferInstance

/-- Within one period: count descending, ties by sender ascending (the
stable order inherited from the grouped table). -/
def rankLe (a b : MonthEntry) : Prop :=
  b.2 < a.2 ∨ (a.2 = b.2 ∧ pyStrLe a.1.2 b.1.2)

instance : DecidableRel rankLe := fun a b => by unfold rankLe; exact inferInstance

/-- The sorted grouped table of `get_top_senders_by_month`. -/
def sorted_data (rows : List JoinedRow) : List MonthEntry :=
  List.insertionSort entryLe2 (groupCounts rows)

/-- Pandas `groupby("year_month").head(top_x)`: keep, in order, every
entry that is among the first `top_x` of its period.  `seen` counts the
entries of each period already emitted or skipped. -/
def groupHeadAux (n : Nat) (seen : String → Nat) : List MonthEntry → List MonthEntry
  | [] => []
  | e :: rest =>
    let c := seen e.1.1
    let seen2 := fun y => if y = e.1.1 then c + 1 else seen y
    if c < n then e :: groupHeadAux n seen2 rest
    else groupHeadAux n seen2 rest

/-- Source function `get_top_senders_by_month`: group by (year-month,
sender) with counts, sort by year-month ascending then count descending
(stable), keep the first `top_x` entries of each period. -/
def get_top_senders_by_month (rows : List JoinedRow) (top_x : Nat) : List MonthEntry :=
  groupHeadAux top_x (fun _ => 0) (sorted_data rows)

/-- Specification-side ranking of one period, from the spec's words: the
period's senders with their counts, sorted descending by count with ties
in the stable (sender-ascending) order of the grouped table. -/
def periodRanking (rows : List JoinedRow) (ym : String) : List MonthEntry :=
  List.insertionSort rankLe ((groupCounts rows).filter fun e => decide (e.1.1 = ym))

/-- The defaultdict update `senders_to_scores[sender] += d`: a fresh
sender starts from the default 0 and is appended in insertion order, an
existing sender is updated in place. -/
def bumpScore : List (String × Int) → String → Int → List (String × Int)
  | [], s, d => [(s, d)]
  | e :: rest, s, d =>
    if e.1 = s then (e.1, e.2 + d) :: rest else e :: bumpScore rest s d

/-- The scoring loop of `compute_sender_scores` over the index pairs of
the top-senders table: when the period changes the rank counter resets
to 0, the current sender receives `5 - rank` (an `Int`: rank 5 or later
yields zero or a negative score), and the rank counter advances.
`cur` starts as the sentinel empty string and `rank` as 0. -/
def scoresLoop : List (String × String) → String → Nat → List (String × Int) → List (String × Int)
  | [], _, _, acc => acc
  | (ym, s) :: rest, cur, rank, acc =>
    let r0 : Nat := if ym = cur then rank else 0
    scoresLoop rest ym (r0 + 1) (bumpScore acc s (5 - (r0 : Int)))

/-- The order of `sorted(..., key=lambda x: x[1], reverse=True)`: score
descending; Python's sort is stable, so ties keep insertion order. -/
def scoreSortRel (a b : String × Int) : Prop := b.2 ≤ a.2

instance : DecidableRel scoreSortRel := fun a b => by unfold scoreSortRel; exact inferInstance

/-- Format one leaderboard entry: `key + ": " + str(value)`. -/
def formatScore (e : String × Int) : String := e.1 ++ ": " ++ toString e.2

/-- Source function `compute_sender_scores`: walk the index of the
top-senders-by-month table, accumulate `5 - rank` per sender, and return
the formatted entries sorted descending by accumulated score. -/
def compute_sender_scores (table : List MonthEntry) : List String :=
  (List.insertionSort scoreSortRel (scoresLoop (table.map fun e => e.1) "" 0 [])).map formatScore

/-- Specification-side run decomposition: the maximal runs of
consecutive index pairs sharing one period, each run keeping its senders
in order. -/
def splitRuns : List (String × String) → List (String × List String)
  | [] => []
  | (ym, s) :: rest =>
    match splitRuns rest with
    | [] => [(ym, [s])]
    | (ym2, ss) :: rs =>
      if ym = ym2 then (ym, s :: ss) :: rs else (ym, [s]) :: (ym2, ss) :: rs

/-- Score one run: the sender at rank `start + i` within the run
receives `5 - (start + i)`; the first sender of a run is scored with
`start = 0`. -/
def runScores (acc : List (String × Int)) : List String → Nat → List (String × Int)
  | [], _ => acc
  | s :: rest, start => runScores (bumpScore acc s (5 - (start : Int))) rest (start + 1)

/-- Specification-side accumulated scores, from the spec's words: each
period's senders ranked 0, 1, ... receive exactly `5 - rank`, summed per
sender across all periods. -/
def specScores (l : List (String × String)) : List (String × Int) :=
  (splitRuns l).foldl (fun acc run => runScores acc run.2 0) []

/-- One observable step of the `__main__` block. -/
inductive CliAction where
  | printMessage (msg : String)
  | exitWith (code : Nat)
  | loadAndAnalyze
deriving DecidableEq

/-- The statement list of the `__main__` block: the usage message is
printed under `len(sys.argv) < 2`, but the `sys.exit(1)` that follows is
outside the conditional, before any data is loaded or analyzed. -/
def cliScript (argv : List String) : List CliAction :=
  (if argv.length < 2 then
    [CliAction.printMessage ("ERROR: Please provide the path to your chat.db file.")]
   else []) ++ [CliAction.exitWith 1, CliAction.loadAndAnalyze]

/-- Execute a statement list: actions run in order until an exit, which
terminates the process; nothing after it runs. -/
def runCli : List CliAction → List CliAction
  | [] => []
  | CliAction.exitWith c :: _ => [CliAction.exitWith c]
  | a :: rest => a :: runCli rest

/-- The exit status of an executed action trace. -/
def cliExitCode (l : List CliAction) : Option Nat :=
  l.findSome? fun a =>
    match a with
    | CliAction.exitWith c => some c
    | _ => none

/-- A joined row with the given chat id and sender; the remaining fields
are fixed representative values. -/
def exRow (c : ChatKey) (s : SenderVal) : JoinedRow :=
  ⟨none, 0, 0, 0, 0, 1, 2022, "2022-01", 0, 0, 0, 1, s, c⟩

/-- Two rows of chat 1: an empty-string sender, then sender A. -/
def exT1 : List JoinedRow := [exRow (some 1) (some ("")), exRow (some 1) (some ("A"))]

/-- Two rows of chat 1, both with a NaN sender. -/
def exT2 : List JoinedRow := [exRow (some 1) none, exRow (some 1) none]

/-- Two rows of chat 1 with the same sender A. -/
def exW1 : List JoinedRow := [exRow (some 1) (some ("A")), exRow (some 1) (some ("A"))]

/-- Chat 1 with conflicting senders A and B. -/
def exT5a : List JoinedRow := [exRow (some 1) (some ("A")), exRow (some 1) (some ("B"))]

/-- A later row of chat 1 matching the originally recorded sender. -/
def exT5b : List JoinedRow := [exRow (some 1) (some ("A"))]

/-- A one-row table whose sender is NaN. -/
def exT8 : List JoinedRow := [exRow (some 1) none]

/-- A row whose sender is a resolved contact name. -/
def rowJordan : JoinedRow := exRow (some 5) (some ("Jordan"))

/-- A row whose sender is a phone number. -/
def rowPhone : JoinedRow := exRow (some 5) (some ("+15551234567"))

/-- A table with one contact-name row and one phone-number row. -/
def exT10 : List JoinedRow := [rowJordan, rowPhone]

/-- A message with handle reference 7 and message id 1. -/
def exMsg : Message := ⟨none, 7, 0, 0, 0, 1, 2022, "2022-01", 0, 0, 0, 1⟩

/-- One handle matching reference 7. -/
def exHandles : List Handle := [⟨7, "Jordan"⟩]

/-- Two membership links for message 1. -/
def exCmj : List ChatMessageJoin := [⟨5, 1⟩, ⟨6, 1⟩]

/-- A joined row with the given period and sender, for the aggregator. -/
def aggRow (ym : String) (s : String) : JoinedRow :=
  ⟨none, 0, 0, 0, 0, 1, 2022, ym, 0, 0, 0, 1, some s, some 1⟩

/-- Five rows over two periods: in 2022-01 sender A has two messages and
B and C one each; in 2022-02 sender B has one. -/
def exT4 : List JoinedRow :=
  [aggRow ("2022-01") ("A"), aggRow ("2022-01") ("A"), aggRow ("2022-01") ("B"),
    aggRow ("2022-01") ("C"), aggRow ("2022-02") ("B")]

/-- A first-seen row of chat 1 with NaN sender. -/
def exR0 : JoinedRow := exRow (some 1) none

/-- A later row of chat 1 with sender A. -/
def exR1 : JoinedRow := exRow (some 1) (some ("A"))

/-- An intervening row of an unrelated chat. -/
def exMid : List JoinedRow := [exRow (some 2) (some ("B"))]

theorem mem_bannedInsert (b : List Nat) (k : ChatKey) (c : Nat) :
    c ∈ bannedInsert b k ↔ (c ∈ b ∨ k = some c) := by
  cases k with
  | none => simp [bannedInsert]
  | some c2 =>
    constructor
    · intro h
      by_cases hb : c2 ∈ b
      · simp only [bannedInsert, if_pos hb] at h
        exact Or.inl h
      · simp only [bannedInsert, if_neg hb, List.mem_append, List.mem_singleton] at h
        rcases h with h | h
        · exact Or.inl h
        · exact Or.inr (by rw [h])
    · intro h
      by_cases hb : c2 ∈ b
      · simp only [bannedInsert, if_pos hb]
        rcases h with h | h
        · exact h
        · injection h with h2
          exact h2 ▸ hb
      · simp only [bannedInsert, if_neg hb, List.mem_append, List.mem_singleton]
        rcases h with h | h
        · exact Or.inl h
        · injection h with h2
          exact Or.inr h2.symm

theorem banned_mono_step (st : ScanState) (r : JoinedRow) {c : Nat}
    (h : c ∈ st.banned_ids) : c ∈ (scanStep st r).banned_ids := by
  unfold scanStep
  split
  · exact h
  · split
    · exact (mem_bannedInsert _ _ _).mpr (Or.inl h)
    · exact h

theorem banned_mono_fold (t : List JoinedRow) (st : ScanState) {c : Nat}
    (h : c ∈ st.banned_ids) : c ∈ (t.foldl scanStep st).banned_ids := by
  induction t generalizing st with
  | nil => exact h
  | cons r rest ih => exact ih _ (banned_mono_step st r h)

/-- C5: the banned set built by the classifier scan is monotonic over the
row traversal: once a conversation id is in the banned set after some
prefix of the table, it is still in the banned set `get_group_chat_ids`
returns after scanning the whole table, whatever the remaining rows are
(including rows whose sender matches the originally recorded sender). -/
theorem claim_C5_banned_monotonic (t1 t2 : List JoinedRow) (c : Nat)
    (h : c ∈ (scanTable t1).banned_ids) : c ∈ get_group_chat_ids (t1 ++ t2) := by
  unfold get_group_chat_ids scanTable
  rw [List.foldl_append]
  exact banned_mono_fold t2 _ h

/-- Witness for C5: chat 1 is banned after its senders A and B conflict,
and remains banned after a further row matching the original sender A. -/
theorem claim_C5_witness :
    1 ∈ (scanTable exT5a).banned_ids ∧ 1 ∈ get_group_chat_ids (exT5a ++ exT5b) :=
  ⟨by decide, claim_C5_banned_monotonic exT5a exT5b 1 (by decide)⟩

theorem chatLookup_append (d d2 : List (ChatKey × SenderVal)) (c : Nat) :
    chatLookup (d ++ d2) (some c) =
      match chatLookup d (some c) with
      | some v => some v
      | none => chatLookup d2 (some c) := by
  induction d with
  | nil => simp [chatLookup]
  | cons e rest ih =>
    by_cases h : e.1 = some c <;> simp [chatLookup, h, ih]

theorem chatLookup_chatReplace_ne (d : List (ChatKey × SenderVal)) (c c2 : Nat)
    (v : SenderVal) (h : c2 ≠ c) :
    chatLookup (chatReplace d c2 v) (some c) = chatLookup d (some c) := by
  induction d with
  | nil => simp [chatReplace]
  | cons e rest ih =>
    by_cases he : e.1 = some c2
    · have : e.1 ≠ some c := by
        rw [he]
        exact fun hc => h (Option.some.inj hc)
      simp [chatReplace, he, chatLookup, this, ih, h, Ne.symm h]
    · by_cases hc : e.1 = some c <;>
        simp [chatReplace, he, chatLookup, hc, ih, h, Ne.symm h]

theorem chatLookup_chatReplace_self (d : List (ChatKey × SenderVal)) (c : Nat)
    (v : SenderVal) :
    chatLookup (chatReplace d c v) (some c) = (chatLookup d (some c)).map (fun _ => v) := by
  induction d with
  | nil => simp [chatReplace, chatLookup]
  | cons e rest ih =>
    by_cases he : e.1 = some c <;> simp [chatReplace, he, chatLookup, ih]

theorem chatLookup_chatAssign_ne (d : List (ChatKey × SenderVal)) (k : ChatKey)
    (v : SenderVal) (c : Nat) (h : k ≠ some c) :
    chatLookup (chatAssign d k v) (some c) = chatLookup d (some c) := by
  cases k with
  | none =>
    simp only [chatAssign]
    rw [chatLookup_append]
    cases hl : chatLookup d (some c) <;> simp [chatLookup]
  | some c2 =>
    have hne : c2 ≠ c := fun hcc => h (by rw [hcc])
    simp only [chatAssign]
    split
    · exact chatLookup_chatReplace_ne d c c2 v hne
    · rw [chatLookup_append]
      cases hl : chatLookup d (some c) <;>
        simp [chatLookup, fun hcc : c2 = c => hne hcc]

theorem chatLookup_chatAssign_self (d : List (ChatKey × SenderVal)) (c : Nat)
    (v : SenderVal) :
    chatLookup (chatAssign d (some c) v) (some c) = some v := by
  simp only [chatAssign]
  split
  · rename_i hs
    rw [chatLookup_chatReplace_self]
    cases hl : chatLookup d (some c)
    · rw [hl] at hs
      simp at hs
    · simp
  · rename_i hs
    cases hl : chatLookup d (some c)
    · rw [chatLookup_append, hl]
      simp [chatLookup]
    · rw [hl] at hs
      simp at hs

theorem scanStep_other (st : ScanState) (r : JoinedRow) (c : Nat)
    (h : r.chat_id ≠ some c) :
    chatLookup (scanStep st r).ids_to_senders (some c) = chatLookup st.ids_to_senders (some c)
    ∧ ((c ∈ (scanStep st r).banned_ids) ↔ c ∈ st.banned_ids) := by
  unfold scanStep
  split
  · exact ⟨chatLookup_chatAssign_ne _ _ _ _ h, Iff.rfl⟩
  · split
    · refine ⟨rfl, ?_⟩
      rw [mem_bannedInsert]
      constructor
      · rintro (hb | hb)
        · exact hb
        · exact absurd hb h
      · exact Or.inl
    · exact ⟨rfl, Iff.rfl⟩

theorem scanFold_other (t : List JoinedRow) (st : ScanState) (c : Nat)
    (h : ∀ r ∈ t, r.chat_id ≠ some c) :
    chatLookup (t.foldl scanStep st).ids_to_senders (some c) = chatLookup st.ids_to_senders (some c)
    ∧ ((c ∈ (t.foldl scanStep st).banned_ids) ↔ c ∈ st.banned_ids) := by
  induction t generalizing st with
  | nil => exact ⟨rfl, Iff.rfl⟩
  | cons r rest ih =>
    have hr := scanStep_other st r c (h r (List.mem_cons_self r rest))
    have hrest := ih (scanStep st r) (fun x hx => h x (List.mem_cons_of_mem r hx))
    exact ⟨hrest.1.trans hr.1, hrest.2.trans hr.2⟩

theorem pyNe_none_left (x : SenderVal) : pyNe none x = true := by
  cases x <;> rfl

/-- C2 counterexample: in a table whose two rows both have chat id 1 and
a NaN sender, there is no subsequent row with a non-null sender at all,
yet chat 1 is banned (NaN compares unequal to NaN), contradicting the
claim that the id is added to the banned set on the first subsequent
row whose sender is non-null. -/
theorem claim_C2_counterexample :
    1 ∈ get_group_chat_ids exT2 ∧ ∀ r ∈ exT2, r.sender = none := by
  decide

theorem scanStep_record (st : ScanState) (r : JoinedRow)
    (h : pyTruthy (chatLookup st.ids_to_senders r.chat_id) = false) :
    scanStep st r =
      { st with ids_to_senders := chatAssign st.ids_to_senders r.chat_id r.sender } := by
  unfold scanStep
  rw [h]
  simp

theorem scanStep_ban (st : ScanState) (r : JoinedRow)
    (h : pyTruthy (chatLookup st.ids_to_senders r.chat_id) = true)
    (h2 : pyNe ((chatLookup st.ids_to_senders r.chat_id).getD none) r.sender = true) :
    scanStep st r = { st with banned_ids := bannedInsert st.banned_ids r.chat_id } := by
  unfold scanStep
  rw [h, h2]
  simp

/-- C2 (amended): a conversation id whose first-seen row has a null
sender is recorded with that null sender, and is added to the banned set
on the first subsequent row for that id regardless of that row's sender
(a NaN recorded sender compares unequal to every sender, null included),
remaining banned to the end of the scan. -/
theorem claim_C2_null_first_seen (t1 t2 t3 : List JoinedRow) (r0 r1 : JoinedRow) (c : Nat)
    (hr0c : r0.chat_id = some c) (hr0s : r0.sender = none) (hr1c : r1.chat_id = some c)
    (h1 : ∀ r ∈ t1, r.chat_id ≠ some c) (h2 : ∀ r ∈ t2, r.chat_id ≠ some c) :
    chatLookup (scanTable (t1 ++ [r0])).ids_to_senders (some c) = some none
    ∧ c ∉ (scanTable ((t1 ++ [r0]) ++ t2)).banned_ids
    ∧ c ∈ (scanTable (((t1 ++ [r0]) ++ t2) ++ [r1])).banned_ids
    ∧ c ∈ get_group_chat_ids ((((t1 ++ [r0]) ++ t2) ++ [r1]) ++ t3) := by
  have base := scanFold_other t1 ⟨[], []⟩ c h1
  have hlook1 : chatLookup (t1.foldl scanStep ⟨[], []⟩).ids_to_senders (some c) = none := by
    rw [base.1]
    simp [chatLookup]
  have hban1 : c ∉ (t1.foldl scanStep ⟨[], []⟩).banned_ids := by
    rw [base.2]
    simp
  have hstep0 : scanStep (t1.foldl scanStep ⟨[], []⟩) r0 =
      { t1.foldl scanStep (⟨[], []⟩ : ScanState) with
        ids_to_senders := chatAssign (t1.foldl scanStep ⟨[], []⟩).ids_to_senders (some c) none } := by
    have hcond :
        pyTruthy (chatLookup (t1.foldl scanStep (⟨[], []⟩ : ScanState)).ids_to_senders r0.chat_id)
          = false := by
      rw [hr0c, hlook1]
      rfl
    rw [scanStep_record _ _ hcond, hr0c, hr0s]
  have hlook2 :
      chatLookup (scanStep (t1.foldl scanStep ⟨[], []⟩) r0).ids_to_senders (some c) = some none := by
    rw [hstep0]
    exact chatLookup_chatAssign_self _ c none
  have hban2 : c ∉ (scanStep (t1.foldl scanStep ⟨[], []⟩) r0).banned_ids := by
    rw [hstep0]
    exact hban1
  have hmid := scanFold_other t2 (scanStep (t1.foldl scanStep ⟨[], []⟩) r0) c h2
  have hlook3 :
      chatLookup (t2.foldl scanStep (scanStep (t1.foldl scanStep ⟨[], []⟩) r0)).ids_to_senders
        (some c) = some none := hmid.1.trans hlook2
  have hban3 : c ∉ (t2.foldl scanStep (scanStep (t1.foldl scanStep ⟨[], []⟩) r0)).banned_ids :=
    fun hc => hban2 (hmid.2.mp hc)
  have hstep1 :
      c ∈ (scanStep (t2.foldl scanStep (scanStep (t1.foldl scanStep ⟨[], []⟩) r0)) r1).banned_ids := by
    have hcond :
        pyTruthy (chatLookup
          (t2.foldl scanStep (scanStep (t1.foldl scanStep (⟨[], []⟩ : ScanState)) r0)).ids_to_senders
          r1.chat_id) = true := by
      rw [hr1c, hlook3]
      rfl
    have hcond2 :
        pyNe ((chatLookup
            (t2.foldl scanStep (scanStep (t1.foldl scanStep (⟨[], []⟩ : ScanState)) r0)).ids_to_senders
            r1.chat_id).getD none) r1.sender = true := by
      rw [hr1c, hlook3]
      simp only [Option.getD_some]
      exact pyNe_none_left _
    rw [scanStep_ban _ _ hcond hcond2, hr1c]
    exact (mem_bannedInsert _ _ _).mpr (Or.inr rfl)
  have hA : (t1 ++ [r0]).foldl scanStep (⟨[], []⟩ : ScanState)
      = scanStep (t1.foldl scanStep ⟨[], []⟩) r0 := by
    rw [List.foldl_append]
    rfl
  have hB : ((t1 ++ [r0]) ++ t2).foldl scanStep (⟨[], []⟩ : ScanState)
      = t2.foldl scanStep (scanStep (t1.foldl scanStep ⟨[], []⟩) r0) := by
    rw [List.foldl_append, hA]
  have hC : (((t1 ++ [r0]) ++ t2) ++ [r1]).foldl scanStep (⟨[], []⟩ : ScanState)
      = scanStep (t2.foldl scanStep (scanStep (t1.foldl scanStep ⟨[], []⟩) r0)) r1 := by
    rw [List.foldl_append, hB]
    rfl
  refine ⟨?_, ?_, ?_, ?_⟩
  · show chatLookup ((t1 ++ [r0]).foldl scanStep ⟨[], []⟩).ids_to_senders (some c) = some none
    rw [hA]
    exact hlook2
  · show c ∉ (((t1 ++ [r0]) ++ t2).foldl scanStep ⟨[], []⟩).banned_ids
    rw [hB]
    exact hban3
  · show c ∈ ((((t1 ++ [r0]) ++ t2) ++ [r1]).foldl scanStep ⟨[], []⟩).banned_ids
    rw [hC]
    exact hstep1
  · show c ∈ (((((t1 ++ [r0]) ++ t2) ++ [r1]) ++ t3).foldl scanStep ⟨[], []⟩).banned_ids
    rw [List.foldl_append, hC]
    exact banned_mono_fold t3 _ hstep1

/-- Witness for C2 (amended): chat 1 first appears with a NaN sender, an
unrelated chat-2 row intervenes, and the next chat-1 row bans it. -/
theorem claim_C2_witness :
    chatLookup (scanTable ([] ++ [exR0])).ids_to_senders (some 1) = some none
    ∧ 1 ∉ (scanTable (([] ++ [exR0]) ++ exMid)).banned_ids
    ∧ 1 ∈ (scanTable ((([] ++ [exR0]) ++ exMid) ++ [exR1])).banned_ids
    ∧ 1 ∈ get_group_chat_ids (((([] ++ [exR0]) ++ exMid) ++ [exR1]) ++ []) :=
  claim_C2_null_first_seen [] exMid [] exR0 exR1 1 (by decide) (by decide) (by decide)
    (by decide) (by decide)

theorem pyNe_eq_false {a b : SenderVal} (h : pyNe a b = false) : a = b := by
  cases a with
  | none => cases b <;> simp [pyNe] at h
  | some x =>
    cases b with
    | none => simp [pyNe] at h
    | some y =>
      simp [pyNe] at h
      rw [h]

theorem chatLookup_chatAssign_cases (d : List (ChatKey × SenderVal)) (k : ChatKey)
    (w v : SenderVal) (c : Nat)
    (h : chatLookup (chatAssign d k w) (some c) = some v) :
    v = w ∨ chatLookup d (some c) = some v := by
  by_cases hk : k = some c
  · subst hk
    rw [chatLookup_chatAssign_self] at h
    exact Or.inl (Option.some.inj h).symm
  · rw [chatLookup_chatAssign_ne d k w c hk] at h
    exact Or.inr h

theorem scanStep_ids (st : ScanState) (r : JoinedRow) :
    (scanStep st r).ids_to_senders = chatAssign st.ids_to_senders r.chat_id r.sender
    ∨ (scanStep st r).ids_to_senders = st.ids_to_senders := by
  unfold scanStep
  split
  · exact Or.inl rfl
  · split
    · exact Or.inr rfl
    · exact Or.inr rfl

theorem hst_step (st : ScanState) (r : JoinedRow)
    (hst : ∀ c2 v, chatLookup st.ids_to_senders (some c2) = some v → senderTruthy v = true)
    (hr : senderTruthy r.sender = true) :
    ∀ c2 v, chatLookup (scanStep st r).ids_to_senders (some c2) = some v →
      senderTruthy v = true := by
  intro c2 v h
  rcases scanStep_ids st r with hi | hi
  · rw [hi] at h
    rcases chatLookup_chatAssign_cases _ _ _ _ _ h with rfl | hold
    · exact hr
    · exact hst c2 v hold
  · rw [hi] at h
    exact hst c2 v h

theorem scan_lookup_persist (t : List JoinedRow) (st : ScanState) (c : Nat) (s : SenderVal)
    (hne : ∀ r ∈ t, senderTruthy r.sender = true)
    (hl : chatLookup st.ids_to_senders (some c) = some s)
    (hs : senderTruthy s = true)
    (hnb : c ∉ (t.foldl scanStep st).banned_ids) :
    chatLookup (t.foldl scanStep st).ids_to_senders (some c) = some s := by
  induction t generalizing st with
  | nil => exact hl
  | cons r rest ih =>
    have hne2 : ∀ x ∈ rest, senderTruthy x.sender = true :=
      fun x hx => hne x (List.mem_cons_of_mem r hx)
    by_cases hrc : r.chat_id = some c
    · have hcond : pyTruthy (chatLookup st.ids_to_senders r.chat_id) = true := by
        rw [hrc, hl]
        exact hs
      cases hpy : pyNe ((chatLookup st.ids_to_senders r.chat_id).getD none) r.sender with
      | true =>
        exfalso
        apply hnb
        rw [List.foldl_cons, scanStep_ban st r hcond hpy]
        exact banned_mono_fold rest _ ((mem_bannedInsert _ _ _).mpr (Or.inr hrc))
      | false =>
        have hstep : scanStep st r = st := by
          unfold scanStep
          rw [hcond, hpy]
          simp
        rw [List.foldl_cons, hstep] at hnb ⊢
        exact ih st hne2 hl hnb
    · have hother := scanStep_other st r c hrc
      rw [List.foldl_cons] at hnb ⊢
      exact ih (scanStep st r) hne2 (hother.1.trans hl) hnb

theorem scan_lookup_eq_sender (t : List JoinedRow) (st : ScanState) (c : Nat)
    (hst : ∀ c2 v, chatLookup st.ids_to_senders (some c2) = some v → senderTruthy v = true)
    (hne : ∀ r ∈ t, senderTruthy r.sender = true)
    (hnb : c ∉ (t.foldl scanStep st).banned_ids) :
    ∀ r ∈ t, r.chat_id = some c →
      chatLookup (t.foldl scanStep st).ids_to_senders (some c) = some r.sender := by
  induction t generalizing st with
  | nil =>
    intro r hr
    cases hr
  | cons r2 rest ih =>
    intro r hr hrc
    have hne2 : ∀ x ∈ rest, senderTruthy x.sender = true :=
      fun x hx => hne x (List.mem_cons_of_mem r2 hx)
    rcases List.mem_cons.mp hr with rfl | hmem
    · cases hl : chatLookup st.ids_to_senders (some c) with
      | none =>
        have hcond : pyTruthy (chatLookup st.ids_to_senders r.chat_id) = false := by
          rw [hrc, hl]
          rfl
        have hl2 : chatLookup (scanStep st r).ids_to_senders (some c) = some r.sender := by
          rw [scanStep_record st r hcond, hrc]
          exact chatLookup_chatAssign_self _ c r.sender
        rw [List.foldl_cons] at hnb ⊢
        exact scan_lookup_persist rest (scanStep st r) c r.sender hne2 hl2
          (hne r (List.mem_cons_self r rest)) hnb
      | some v =>
        have hv := hst c v hl
        have hcond : pyTruthy (chatLookup st.ids_to_senders r.chat_id) = true := by
          rw [hrc, hl]
          exact hv
        cases hpy : pyNe ((chatLookup st.ids_to_senders r.chat_id).getD none) r.sender with
        | true =>
          exfalso
          apply hnb
          rw [List.foldl_cons, scanStep_ban st r hcond hpy]
          exact banned_mono_fold rest _ ((mem_bannedInsert _ _ _).mpr (Or.inr hrc))
        | false =>
          have hveq : v = r.sender := by
            have hx := pyNe_eq_false hpy
            rw [hrc, hl] at hx
            simpa using hx
          have hstep : scanStep st r = st := by
            unfold scanStep
            rw [hcond, hpy]
            simp
          rw [List.foldl_cons, hstep] at hnb ⊢
          exact hveq ▸ scan_lookup_persist rest st c v hne2 hl hv hnb
    · have hst2 := hst_step st r2 hst (hne r2 (List.mem_cons_self r2 rest))
      rw [List.foldl_cons] at hnb ⊢
      exact ih (scanStep st r2) hst2 hne2 hnb r hmem hrc

/-- C1 counterexample: with the rows (chat 1, sender "") then
(chat 1, sender A), the stored empty-string sender is falsy, so the
second row re-records instead of banning; chat 1 is not banned although
its two rows carry different sender values, refuting the claim as
stated. -/
theorem claim_C1_counterexample :
    get_group_chat_ids exT1 = []
    ∧ (exRow (some 1) (some (""))).chat_id = some 1
    ∧ (exRow (some 1) (some ("A"))).chat_id = some 1
    ∧ (exRow (some 1) (some (""))).sender ≠ (exRow (some 1) (some ("A"))).sender := by
  decide

/-- C1 (amended): over a joined table none of whose rows has the empty
string as sender (null is allowed), every conversation id not in the
banned set returned by get_group_chat_ids has the identical sender value
on all of its rows. -/
theorem claim_C1_nonbanned_single_sender (t : List JoinedRow) (c : Nat) (r r2 : JoinedRow)
    (hs : ∀ row ∈ t, row.sender ≠ some (""))
    (hnb : c ∉ get_group_chat_ids t)
    (hr : r ∈ t) (hr2 : r2 ∈ t) (hc : r.chat_id = some c) (hc2 : r2.chat_id = some c) :
    r.sender = r2.sender := by
  have hne : ∀ row ∈ t, senderTruthy row.sender = true := by
    intro row hrow
    cases hrow2 : row.sender with
    | none => rfl
    | some s =>
      have hx := hs row hrow
      rw [hrow2] at hx
      simp only [senderTruthy, decide_eq_true_eq]
      intro h
      exact hx (by rw [h])
  have hst0 : ∀ c2 v,
      chatLookup (⟨[], []⟩ : ScanState).ids_to_senders (some c2) = some v →
        senderTruthy v = true := by
    intro c2 v h
    simp [chatLookup] at h
  have h1 := scan_lookup_eq_sender t ⟨[], []⟩ c hst0 hne hnb r hr hc
  have h2 := scan_lookup_eq_sender t ⟨[], []⟩ c hst0 hne hnb r2 hr2 hc2
  exact Option.some.inj (h1.symm.trans h2)

/-- Witness for C1 (amended): a table whose two rows of chat 1 both have
sender A; chat 1 is unbanned and the senders agree. -/
theorem claim_C1_witness :
    (∀ row ∈ exW1, row.sender ≠ some (""))
    ∧ 1 ∉ get_group_chat_ids exW1
    ∧ (exRow (some 1) (some ("A"))).sender = (exRow (some 1) (some ("A"))).sender :=
  ⟨by decide, by decide,
    claim_C1_nonbanned_single_sender exW1 1 (exRow (some 1) (some ("A")))
      (exRow (some 1) (some ("A"))) (by decide) (by decide)
      (by simp [exW1]) (by simp [exW1]) rfl rfl⟩

theorem getLast?_cons_eq {α : Type} (e : α) (l : List α) :
    (e :: l).getLast? =
      match l.getLast? with
      | some x => some x
      | none => some e := by
  cases l with
  | nil => rfl
  | cons b rest =>
    rw [List.getLast?_cons_cons]
    cases hx : (b :: rest).getLast? with
    | none =>
      exact absurd (List.getLast?_eq_none_iff.mp hx) (List.cons_ne_nil b rest)
    | some x => rfl

theorem senderLookup_append (d d2 : List (SenderVal × ChatKey)) (s : String) :
    senderLookup (d ++ d2) s =
      match senderLookup d s with
      | some v => some v
      | none => senderLookup d2 s := by
  induction d with
  | nil => simp [senderLookup]
  | cons e rest ih =>
    by_cases h : e.1 = some s <;> simp [senderLookup, h, ih]

theorem senderLookup_senderReplace_ne (d : List (SenderVal × ChatKey)) (s s2 : String)
    (id : ChatKey) (h : s2 ≠ s) :
    senderLookup (senderReplace d s2 id) s = senderLookup d s := by
  induction d with
  | nil => simp [senderReplace]
  | cons e rest ih =>
    by_cases he : e.1 = some s2
    · have hne : e.1 ≠ some s := by
        rw [he]
        exact fun hc => h (Option.some.inj hc)
      simp [senderReplace, he, senderLookup, hne, ih, h, Ne.symm h]
    · by_cases hc : e.1 = some s <;>
        simp [senderReplace, he, senderLookup, hc, ih, h, Ne.symm h]

theorem senderLookup_senderReplace_self (d : List (SenderVal × ChatKey)) (s : String)
    (id : ChatKey) :
    senderLookup (senderReplace d s id) s = (senderLookup d s).map (fun _ => id) := by
  induction d with
  | nil => simp [senderReplace, senderLookup]
  | cons e rest ih =>
    by_cases he : e.1 = some s <;> simp [senderReplace, he, senderLookup, ih]

theorem senderLookup_senderAssign (d : List (SenderVal × ChatKey)) (v : SenderVal)
    (id : ChatKey) (s : String) :
    senderLookup (senderAssign d v id) s =
      if v = some s then some id else senderLookup d s := by
  cases v with
  | none =>
    simp only [senderAssign]
    rw [senderLookup_append]
    have : (some s : SenderVal) ≠ none := by simp
    cases hl : senderLookup d s <;> simp [senderLookup]
  | some s2 =>
    by_cases hs : s2 = s
    · subst hs
      simp only [senderAssign]
      split
      · rename_i hp
        rw [senderLookup_senderReplace_self]
        cases hl : senderLookup d s2
        · rw [hl] at hp
          simp at hp
        · simp
      · rename_i hp
        cases hl : senderLookup d s2
        · rw [senderLookup_append, hl]
          simp [senderLookup]
        · rw [hl] at hp
          simp at hp
    · simp only [senderAssign]
      have hcond : (some s2 : SenderVal) ≠ some s := by
        simp [hs]
      rw [if_neg hcond]
      split
      · exact senderLookup_senderReplace_ne d s s2 id hs
      · rw [senderLookup_append]
        cases hl : senderLookup d s <;> simp [senderLookup, hs]

theorem senderLookup_fold (l : List (ChatKey × SenderVal)) (acc : List (SenderVal × ChatKey))
    (s : String) :
    senderLookup (l.foldl (fun acc e => senderAssign acc e.2 e.1) acc) s =
      match (l.filter fun e => decide (e.2 = some s)).getLast? with
      | some e => some e.1
      | none => senderLookup acc s := by
  induction l generalizing acc with
  | nil => simp
  | cons e rest ih =>
    rw [List.foldl_cons, ih]
    by_cases he : e.2 = some s
    · rw [List.filter_cons_of_pos (by simp [he]), getLast?_cons_eq]
      cases hx : (rest.filter fun x => decide (x.2 = some s)).getLast? with
      | none => simp [senderLookup_senderAssign, he]
      | some f => simp
    · rw [List.filter_cons_of_neg (by simp [he])]
      cases hx : (rest.filter fun x => decide (x.2 = some s)).getLast? with
      | none => simp [senderLookup_senderAssign, he]
      | some f => simp

/-- C7: `get_dm_chat_ids` is the sender-to-id inversion of the non-banned
recorded entries: the chat id it returns for a sender string is the chat
id of the last surviving entry recorded with that sender, so when two
distinct non-banned conversation ids map to the same sender only the
last one survives the inversion. -/
theorem claim_C7_dm_inversion_last_wins (t : List JoinedRow) (s : String) :
    senderLookup (get_dm_chat_ids t) s =
      ((dm_entries t).filter fun e => decide (e.2 = some s)).getLast?.map (fun e => e.1) := by
  unfold get_dm_chat_ids
  rw [senderLookup_fold]
  cases hx : ((dm_entries t).filter fun e => decide (e.2 = some s)).getLast? with
  | none => simp [senderLookup]
  | some f => simp

/-- C8 counterexample: on a table with a NaN sender,
`remove_no_contact_senders` raises a TypeError (the inverted
`str.contains` mask contains NaN) instead of returning a table. -/
theorem claim_C8_counterexample :
    remove_no_contact_senders exT8
      = Except.error ("TypeError: bad operand type for unary ~: float") := by
  rfl

/-- C8 (amended): rows with a null sender are NOT absorbed by
`remove_no_contact_senders`: for every joined table containing at least
one row whose sender is null, applying it raises a TypeError rather than
returning a table.  Null senders are absorbed earlier, by the left joins
and the classifier, not by this filter. -/
theorem claim_C8_null_sender_raises (t : List JoinedRow) (h : ∃ r ∈ t, r.sender = none) :
    remove_no_contact_senders t
      = Except.error ("TypeError: bad operand type for unary ~: float") := by
  unfold remove_no_contact_senders
  rw [if_pos]
  rcases h with ⟨r, hr, hs⟩
  exact List.any_eq_true.mpr ⟨r, hr, by rw [hs]; rfl⟩

/-- Witness for C8 (amended): the one-row NaN-sender table raises. -/
theorem claim_C8_witness :
    (∃ r ∈ exT8, r.sender = none)
    ∧ remove_no_contact_senders exT8
      = Except.error ("TypeError: bad operand type for unary ~: float") :=
  ⟨⟨exRow (some 1) none, by decide, rfl⟩,
    claim_C8_null_sender_raises exT8 ⟨exRow (some 1) none, by decide, rfl⟩⟩

/-- C9: the `__main__` block prints the usage error exactly when no path
argument is given (argv holds only the script name), and the
unconditionally placed `sys.exit(1)` is reached on every invocation, so
the process always terminates with status 1 and never reaches the
loading/analysis statements, even when a path IS provided. -/
theorem claim_C9_cli_always_exits (argv : List String) :
    cliExitCode (runCli (cliScript argv)) = some 1
    ∧ CliAction.loadAndAnalyze ∉ runCli (cliScript argv)
    ∧ ((CliAction.printMessage ("ERROR: Please provide the path to your chat.db file.")
        ∈ runCli (cliScript argv)) ↔ argv.length < 2) := by
  by_cases h : argv.length < 2
  · simp only [cliScript, if_pos h]
    exact ⟨by decide, by decide, ⟨fun _ => h, fun _ => by decide⟩⟩
  · simp only [cliScript, if_neg h]
    exact ⟨by decide, by decide, ⟨fun hmem => absurd hmem (by decide), fun hlt => absurd hlt h⟩⟩

/-- C10: each filter returns a sublist of its input (so a sub-multiset
with every retained row unchanged field for field); the input table
itself is untouched, the embedding being purely functional just as the
pandas boolean selections build new frames. -/
theorem claim_C10_filters_preserve_rows (t : List JoinedRow) (c : Nat) :
    (∀ out, remove_no_contact_senders t = Except.ok out → List.Sublist out t)
    ∧ List.Sublist (filter_groups t) t
    ∧ List.Sublist (filter_funusha t) t
    ∧ List.Sublist (single_chat t c) t := by
  refine ⟨?_, List.filter_sublist t, List.filter_sublist t, List.filter_sublist t⟩
  intro out h
  unfold remove_no_contact_senders at h
  split at h
  · cases h
  · cases h
    exact List.filter_sublist t

/-- Witness for C10 at a concrete table: the phone-number row is dropped
by the non-contact filter and every filter output embeds into the
input. -/
theorem claim_C10_witness :
    List.Sublist [rowJordan] exT10
    ∧ List.Sublist (filter_groups exT10) exT10
    ∧ List.Sublist (filter_funusha exT10) exT10
    ∧ List.Sublist (single_chat exT10 5) exT10 :=
  ⟨(claim_C10_filters_preserve_rows exT10 5).1 [rowJordan] rfl,
    (claim_C10_filters_preserve_rows exT10 5).2.1,
    (claim_C10_filters_preserve_rows exT10 5).2.2.1,
    (claim_C10_filters_preserve_rows exT10 5).2.2.2⟩

theorem filter_handle_len_le_one (handles : List Handle)
    (h : (handles.map fun x => x.handle_id).Nodup) (k : Nat) :
    (handles.filter fun x => decide (x.handle_id = k)).length ≤ 1 := by
  induction handles with
  | nil => simp
  | cons a rest ih =>
    rw [List.map_cons, List.nodup_cons] at h
    by_cases ha : a.handle_id = k
    · rw [List.filter_cons_of_pos (by simp [ha])]
      have hnil : rest.filter (fun x => decide (x.handle_id = k)) = [] := by
        rw [List.filter_eq_nil_iff]
        intro x hx
        simp only [decide_eq_true_eq]
        intro hxk
        exact h.1 (by
          rw [ha, ← hxk]
          exact List.mem_map_of_mem _ hx)
      rw [hnil]
      simp
    · rw [List.filter_cons_of_neg (by simp [ha])]
      exact ih h.2

theorem merge_level_1_eq_map (messages : List Message) (handles : List Handle)
    (h : (handles.map fun x => x.handle_id).Nodup) :
    merge_level_1 messages handles = messages.map (fun m =>
      (m, match handles.filter fun x => decide (x.handle_id = m.handle_id) with
          | [] => none
          | hh :: _ => some hh.sender)) := by
  unfold merge_level_1
  induction messages with
  | nil => rfl
  | cons m rest ih =>
    rw [List.flatMap_cons, List.map_cons, ih]
    cases hf : handles.filter fun x => decide (x.handle_id = m.handle_id) with
    | nil => simp [hf]
    | cons hh tl =>
      have hlen := filter_handle_len_le_one handles h m.handle_id
      rw [hf] at hlen
      have htl : tl = [] := by
        cases tl with
        | nil => rfl
        | cons b bs => simp at hlen
      subst htl
      simp [hf]

theorem block2_map_id (m : Message) (s : Option String) (cmj : List ChatMessageJoin) :
    ((if (cmj.filter fun c => decide (c.message_id = m.message_id)).isEmpty
        then [joinRow m s none]
        else (cmj.filter fun c => decide (c.message_id = m.message_id)).map
          fun c => joinRow m s (some c.chat_id)).map fun r => r.message_id)
      = List.replicate (max 1 (cmj.countP fun c => decide (c.message_id = m.message_id)))
          m.message_id := by
  cases hf : cmj.filter fun c => decide (c.message_id = m.message_id) with
  | nil => simp [hf, joinRow, List.countP_eq_length_filter]
  | cons c0 cs0 =>
    rw [List.countP_eq_length_filter, hf]
    simp only [hf, List.isEmpty_cons, Bool.false_eq_true, if_false, List.map_map]
    have hmax : max 1 (c0 :: cs0).length = (c0 :: cs0).length := by
      simp [Nat.succ_le_succ]
    rw [hmax]
    have hcomp : ((fun r => r.message_id) ∘ fun (c : ChatMessageJoin) => joinRow m s (some c.chat_id))
        = fun (_ : ChatMessageJoin) => m.message_id := rfl
    rw [hcomp, List.map_const']

/-- C6: with unique handle ids, `merge_data` emits, for each message row
in order, exactly `max 1 k` joined rows carrying its message id, where
`k` is the number of membership links for that message: a message with
no link or one link appears once, a message with `k > 1` links appears
exactly `k` times, no message row is dropped and no other duplication
occurs; consequently the output row count is the sum of these
multiplicities. -/
theorem claim_C6_merge_row_counts (messages : List Message) (handles : List Handle)
    (cmj : List ChatMessageJoin) (h : (handles.map fun x => x.handle_id).Nodup) :
    (merge_data messages handles cmj).map (fun r => r.message_id)
      = messages.flatMap (fun m =>
          List.replicate (max 1 (cmj.countP fun c => decide (c.message_id = m.message_id)))
            m.message_id)
    ∧ (merge_data messages handles cmj).length
      = (messages.map (fun m =>
          max 1 (cmj.countP fun c => decide (c.message_id = m.message_id)))).sum := by
  have hmap : (merge_data messages handles cmj).map (fun r => r.message_id)
      = messages.flatMap (fun m =>
          List.replicate (max 1 (cmj.countP fun c => decide (c.message_id = m.message_id)))
            m.message_id) := by
    unfold merge_data
    rw [merge_level_1_eq_map _ _ h, List.flatMap_map, List.map_flatMap]
    congr 1
    funext m
    exact block2_map_id m _ cmj
  refine ⟨hmap, ?_⟩
  have hlen := congrArg List.length hmap
  rw [List.length_map, List.length_flatMap] at hlen
  rw [hlen]
  congr 1
  apply List.map_congr_left
  intro m _
  simp

/-- Witness for C6: one message with handle 7 and two membership links
appears twice; the output length matches the multiplicity sum. -/
theorem claim_C6_witness :
    ((exHandles.map fun x => x.handle_id).Nodup)
    ∧ (merge_data [exMsg] exHandles exCmj).length
      = (([exMsg]).map (fun m =>
          max 1 (exCmj.countP fun c => decide (c.message_id = m.message_id)))).sum :=
  ⟨by decide, (claim_C6_merge_row_counts [exMsg] exHandles exCmj (by decide)).2⟩

theorem splitRuns_eq_nil {l : List (String × String)} (h : splitRuns l = []) : l = [] := by
  cases l with
  | nil => rfl
  | cons p rest =>
    obtain ⟨y, s⟩ := p
    exfalso
    simp only [splitRuns] at h
    cases hsr : splitRuns rest with
    | nil =>
      rw [hsr] at h
      simp at h
    | cons hd rs =>
      rw [hsr] at h
      obtain ⟨ym2, ss⟩ := hd
      by_cases hy : y = ym2 <;> simp [hy] at h

theorem scoresLoop_splitRuns (l : List (String × String)) (ym : String) (rank : Nat)
    (acc : List (String × Int)) :
    scoresLoop l ym rank acc =
      match splitRuns l with
      | [] => acc
      | (ym2, ss) :: rs =>
        if ym2 = ym then
          rs.foldl (fun a run => runScores a run.2 0) (runScores acc ss rank)
        else
          (splitRuns l).foldl (fun a run => runScores a run.2 0) acc := by
  induction l generalizing ym rank acc with
  | nil => rfl
  | cons p rest ih =>
    obtain ⟨y, s⟩ := p
    cases hsr : splitRuns rest with
    | nil =>
      have hrest : rest = [] := splitRuns_eq_nil hsr
      subst hrest
      by_cases hym : y = ym <;>
        simp [scoresLoop, splitRuns, hym, runScores, Ne.symm]
    | cons hd rs =>
      obtain ⟨ym2, ss⟩ := hd
      by_cases hy2 : y = ym2
      · subst hy2
        by_cases hym : y = ym
        · subst hym
          simp only [scoresLoop, if_pos rfl]
          rw [ih]
          simp [splitRuns, hsr, runScores]
        · simp only [scoresLoop, if_neg hym]
          rw [ih]
          simp [splitRuns, hsr, runScores, hym, Ne.symm hym]
      · by_cases hym : y = ym
        · subst hym
          simp only [scoresLoop, if_pos rfl]
          rw [ih]
          simp [splitRuns, hsr, runScores, hy2, Ne.symm hy2]
        · simp only [scoresLoop, if_neg hym]
          rw [ih]
          simp [splitRuns, hsr, runScores, hy2, Ne.symm hy2, hym, Ne.symm hym]

theorem scoresLoop_eq_specScores (l : List (String × String)) :
    scoresLoop l ("") 0 [] = specScores l := by
  rw [scoresLoop_splitRuns]
  unfold specScores
  cases hsr : splitRuns l with
  | nil => rfl
  | cons hd rs =>
    obtain ⟨ym2, ss⟩ := hd
    by_cases h : ym2 = ("") <;> simp [h]

/-- C3: `compute_sender_scores` equals the specification ranker: split
the walked index pairs into maximal runs of one period (the rank counter
resets to 0 whenever a row starts a new period), give the sender at rank
r within a run the integer score `5 - r` (rank 0 for the top sender;
rank 5 or later yields zero or a negative score, not floored), sum the
scores per sender across all periods, and print the entries as
"name: score" strings sorted descending by accumulated total (the sorted
output is indeed descending in the accumulated score). -/
theorem claim_C3_ranker_spec (table : List MonthEntry) :
    compute_sender_scores table
      = (List.insertionSort scoreSortRel (specScores (table.map fun e => e.1))).map formatScore
    ∧ List.Sorted scoreSortRel
        (List.insertionSort scoreSortRel (specScores (table.map fun e => e.1))) := by
  constructor
  · unfold compute_sender_scores
    rw [scoresLoop_eq_specScores]
  · haveI : IsTotal (String × Int) scoreSortRel := ⟨fun a b => le_total b.2 a.2⟩
    haveI : IsTrans (String × Int) scoreSortRel := ⟨fun a b c hab hbc => le_trans hbc hab⟩
    exact List.sorted_insertionSort scoreSortRel _

theorem charListLtB_irrefl (l : List Char) : charListLtB l l = false := by
  induction l with
  | nil => rfl
  | cons a as ih => simp [charListLtB, Nat.lt_irrefl, ih]

theorem charListLtB_asymm {a b : List Char} (h : charListLtB a b = true) :
    charListLtB b a = false := by
  induction a generalizing b with
  | nil =>
    cases b with
    | nil => rfl
    | cons y bs => rfl
  | cons x as ih =>
    cases b with
    | nil => simp [charListLtB] at h
    | cons y bs =>
      by_cases h1 : x.toNat < y.toNat
      · have h2 : ¬ y.toNat < x.toNat := fun hc => Nat.lt_asymm h1 hc
        simp [charListLtB, h1, h2]
      · by_cases h2 : y.toNat < x.toNat
        · simp [charListLtB, h1, h2] at h
        · simp only [charListLtB, if_neg h1, if_neg h2] at h
          simp only [charListLtB, if_neg h2, if_neg h1]
          exact ih h

theorem charListLtB_trans {a b c : List Char} (hab : charListLtB a b = true)
    (hbc : charListLtB b c = true) : charListLtB a c = true := by
  induction a generalizing b c with
  | nil =>
    cases c with
    | nil =>
      cases b with
      | nil => exact hbc
      | cons y bs => simp [charListLtB] at hbc
    | cons z cs => rfl
  | cons x as ih =>
    cases b with
    | nil => simp [charListLtB] at hab
    | cons y bs =>
      cases c with
      | nil => simp [charListLtB] at hbc
      | cons z cs =>
        by_cases h1 : x.toNat < y.toNat
        · by_cases h2 : y.toNat < z.toNat
          · have hz : x.toNat < z.toNat := Nat.lt_trans h1 h2
            simp [charListLtB, hz]
          · by_cases h3 : z.toNat < y.toNat
            · simp [charListLtB, h2, h3] at hbc
            · have hyz : y.toNat = z.toNat :=
                Nat.le_antisymm (Nat.le_of_not_lt h3) (Nat.le_of_not_lt h2)
              have hz : x.toNat < z.toNat := hyz ▸ h1
              simp [charListLtB, hz]
        · by_cases h1b : y.toNat < x.toNat
          · simp [charListLtB, h1, h1b] at hab
          · have hxy : x.toNat = y.toNat :=
              Nat.le_antisymm (Nat.le_of_not_lt h1b) (Nat.le_of_not_lt h1)
            simp only [charListLtB, if_neg h1, if_neg h1b] at hab
            by_cases h2 : y.toNat < z.toNat
            · have hz : x.toNat < z.toNat := hxy ▸ h2
              simp [charListLtB, hz]
            · by_cases h3 : z.toNat < y.toNat
              · simp [charListLtB, h2, h3] at hbc
              · have hyz : y.toNat = z.toNat :=
                  Nat.le_antisymm (Nat.le_of_not_lt h3) (Nat.le_of_not_lt h2)
                simp only [charListLtB, if_neg h2, if_neg h3] at hbc
                have hxz : x.toNat = z.toNat := hxy.trans hyz
                simp only [charListLtB, hxz, Nat.lt_irrefl, if_false]
                exact ih hab hbc

theorem charListLtB_eq_of_not_lt {a b : List Char} (h1 : charListLtB a b = false)
    (h2 : charListLtB b a = false) : a = b := by
  induction a generalizing b with
  | nil =>
    cases b with
    | nil => rfl
    | cons y bs => simp [charListLtB] at h1
  | cons x as ih =>
    cases b with
    | nil => simp [charListLtB] at h2
    | cons y bs =>
      by_cases hx : x.toNat < y.toNat
      · simp [charListLtB, hx] at h1
      · by_cases hy : y.toNat < x.toNat
        · simp [charListLtB, hy] at h2
        · have hxy : x.toNat = y.toNat :=
            Nat.le_antisymm (Nat.le_of_not_lt hy) (Nat.le_of_not_lt hx)
          have hchar : x = y := Char.eq_of_val_eq (UInt32.eq_of_val_eq (Fin.ext hxy))
          simp only [charListLtB, if_neg hx, if_neg hy] at h1 h2
          rw [hchar, ih h1 h2]

theorem string_ext {a b : String} (h : a.data = b.data) : a = b := by
  cases a
  cases b
  exact congrArg String.mk h

theorem pyStrLt_irrefl (a : String) : ¬ pyStrLt a a := by
  unfold pyStrLt
  rw [charListLtB_irrefl]
  simp

theorem pyStrLt_asymm {a b : String} (h : pyStrLt a b) : ¬ pyStrLt b a := by
  unfold pyStrLt at h ⊢
  rw [charListLtB_asymm h]
  simp

theorem pyStrLt_trans {a b c : String} (h1 : pyStrLt a b) (h2 : pyStrLt b c) :
    pyStrLt a c :=
  charListLtB_trans h1 h2

theorem pyStrLt_trichotomy (a b : String) : pyStrLt a b ∨ a = b ∨ pyStrLt b a := by
  unfold pyStrLt
  cases h1 : charListLtB a.data b.data with
  | true => exact Or.inl rfl
  | false =>
    cases h2 : charListLtB b.data a.data with
    | true => exact Or.inr (Or.inr rfl)
    | false => exact Or.inr (Or.inl (string_ext (charListLtB_eq_of_not_lt h1 h2)))

theorem pyStrLe_total (a b : String) : pyStrLe a b ∨ pyStrLe b a := by
  unfold pyStrLe
  cases h : charListLtB b.data a.data with
  | false => exact Or.inl rfl
  | true => exact Or.inr (charListLtB_asymm h)

theorem pyStrLe_trans {a b c : String} (h1 : pyStrLe a b) (h2 : pyStrLe b c) :
    pyStrLe a c := by
  unfold pyStrLe at h1 h2 ⊢
  cases hca : charListLtB c.data a.data with
  | false => rfl
  | true =>
    exfalso
    rcases pyStrLt_trichotomy a b with hab | hab | hab
    · have hab2 : charListLtB a.data b.data = true := hab
      rw [charListLtB_trans hca hab2] at h2
      exact Bool.noConfusion h2
    · rw [hab] at hca
      rw [hca] at h2
      exact Bool.noConfusion h2
    · have hab2 : charListLtB b.data a.data = true := hab
      rw [hab2] at h1
      exact Bool.noConfusion h1

theorem pyStrLe_antisymm {a b : String} (h1 : pyStrLe a b) (h2 : pyStrLe b a) : a = b :=
  string_ext (charListLtB_eq_of_not_lt h2 h1)

theorem keyLe_total (a b : String × String) : keyLe a b ∨ keyLe b a := by
  unfold keyLe
  rcases pyStrLt_trichotomy a.1 b.1 with h | h | h
  · exact Or.inl (Or.inl h)
  · rcases pyStrLe_total a.2 b.2 with h2 | h2
    · exact Or.inl (Or.inr ⟨h, h2⟩)
    · exact Or.inr (Or.inr ⟨h.symm, h2⟩)
  · exact Or.inr (Or.inl h)

theorem keyLe_trans (a b c : String × String) (hab : keyLe a b) (hbc : keyLe b c) :
    keyLe a c := by
  unfold keyLe at hab hbc ⊢
  rcases hab with h | ⟨h1, h2⟩ <;> rcases hbc with g | ⟨g1, g2⟩
  · exact Or.inl (pyStrLt_trans h g)
  · exact Or.inl (by rw [← g1]; exact h)
  · exact Or.inl (by rw [h1]; exact g)
  · exact Or.inr ⟨h1.trans g1, pyStrLe_trans h2 g2⟩

theorem groupCounts_key_sorted (rows : List JoinedRow) :
    List.Pairwise (fun a b : MonthEntry => keyLe a.1 b.1) (groupCounts rows) := by
  unfold groupCounts
  haveI : IsTotal (String × String) keyLe := ⟨keyLe_total⟩
  haveI : IsTrans (String × String) keyLe := ⟨keyLe_trans⟩
  exact List.Pairwise.map _ (fun a b h => h) (List.sorted_insertionSort keyLe _)

theorem groupCounts_nodup (rows : List JoinedRow) : (groupCounts rows).Nodup := by
  unfold groupCounts
  apply List.Nodup.map
  · intro k1 k2 h
    exact congrArg Prod.fst h
  · exact ((List.perm_insertionSort keyLe _).nodup_iff).mpr (List.nodup_dedup _)

theorem mem_groupCounts (rows : List JoinedRow) (e : MonthEntry) (h : e ∈ groupCounts rows) :
    e.2 = (aggKeys rows).count e.1 ∧ 0 < e.2 ∧ e.1 ∈ aggKeys rows := by
  unfold groupCounts at h
  rcases List.mem_map.mp h with ⟨k, hk, rfl⟩
  have hk2 : k ∈ (aggKeys rows).dedup := (List.perm_insertionSort keyLe _).mem_iff.mp hk
  have hk3 : k ∈ aggKeys rows := List.mem_dedup.mp hk2
  exact ⟨rfl, List.count_pos_iff.mpr hk3, hk3⟩

theorem groupCounts_complete (rows : List JoinedRow) (k : String × String)
    (h : k ∈ aggKeys rows) : (k, (aggKeys rows).count k) ∈ groupCounts rows := by
  unfold groupCounts
  exact List.mem_map_of_mem _
    ((List.perm_insertionSort keyLe _).mem_iff.mpr (List.mem_dedup.mpr h))

theorem entryLe3_total (a b : MonthEntry) : entryLe3 a b ∨ entryLe3 b a := by
  unfold entryLe3
  rcases pyStrLt_trichotomy a.1.1 b.1.1 with h | h | h
  · exact Or.inl (Or.inl h)
  · rcases lt_trichotomy a.2 b.2 with h2 | h2 | h2
    · exact Or.inr (Or.inr ⟨h.symm, Or.inl h2⟩)
    · rcases pyStrLe_total a.1.2 b.1.2 with h3 | h3
      · exact Or.inl (Or.inr ⟨h, Or.inr ⟨h2, h3⟩⟩)
      · exact Or.inr (Or.inr ⟨h.symm, Or.inr ⟨h2.symm, h3⟩⟩)
    · exact Or.inl (Or.inr ⟨h, Or.inl h2⟩)
  · exact Or.inr (Or.inl h)

theorem entryLe3_trans (a b c : MonthEntry) (hab : entryLe3 a b) (hbc : entryLe3 b c) :
    entryLe3 a c := by
  unfold entryLe3 at hab hbc ⊢
  rcases hab with h | ⟨h1, h2⟩ <;> rcases hbc with g | ⟨g1, g2⟩
  · exact Or.inl (pyStrLt_trans h g)
  · exact Or.inl (by rw [← g1]; exact h)
  · exact Or.inl (by rw [h1]; exact g)
  · refine Or.inr ⟨h1.trans g1, ?_⟩
    rcases h2 with h2 | ⟨h2, h3⟩ <;> rcases g2 with g2 | ⟨g2, g3⟩
    · exact Or.inl (g2.trans h2)
    · exact Or.inl (by rw [← g2]; exact h2)
    · exact Or.inl (by rw [h2]; exact g2)
    · exact Or.inr ⟨h2.trans g2, pyStrLe_trans h3 g3⟩

theorem entryLe3_antisymm (a b : MonthEntry) (hab : entryLe3 a b) (hba : entryLe3 b a) :
    a = b := by
  unfold entryLe3 at hab hba
  rcases hab with h | ⟨h1, h2⟩
  · rcases hba with g | ⟨g1, _⟩
    · exact absurd g (pyStrLt_asymm h)
    · exact absurd h (by rw [g1]; exact pyStrLt_irrefl _)
  · rcases hba with g | ⟨g1, g2⟩
    · exact absurd g (by rw [h1]; exact pyStrLt_irrefl _)
    · have hcount : a.2 = b.2 := by
        rcases h2 with h2 | ⟨h2, _⟩
        · rcases g2 with g2 | ⟨g2, _⟩
          · exact absurd g2 (lt_asymm h2)
          · exact g2.symm
        · exact h2
      have hsender : a.1.2 = b.1.2 := by
        rcases h2 with h2 | ⟨_, h3⟩
        · exact absurd h2 (by rw [hcount]; exact lt_irrefl _)
        · rcases g2 with g2 | ⟨_, g3⟩
          · exact absurd g2 (by rw [hcount]; exact lt_irrefl _)
          · exact pyStrLe_antisymm h3 g3
      have hkey : a.1 = b.1 := Prod.ext h1 hsender
      exact Prod.ext hkey hcount

theorem rankLe_total (a b : MonthEntry) : rankLe a b ∨ rankLe b a := by
  unfold rankLe
  rcases lt_trichotomy a.2 b.2 with h | h | h
  · exact Or.inr (Or.inl h)
  · rcases pyStrLe_total a.1.2 b.1.2 with h2 | h2
    · exact Or.inl (Or.inr ⟨h, h2⟩)
    · exact Or.inr (Or.inr ⟨h.symm, h2⟩)
  · exact Or.inl (Or.inl h)

theorem rankLe_trans (a b c : MonthEntry) (hab : rankLe a b) (hbc : rankLe b c) :
    rankLe a c := by
  unfold rankLe at hab hbc ⊢
  rcases hab with h | ⟨h1, h2⟩ <;> rcases hbc with g | ⟨g1, g2⟩
  · exact Or.inl (g.trans h)
  · exact Or.inl (by rw [← g1]; exact h)
  · exact Or.inl (by rw [h1]; exact g)
  · exact Or.inr ⟨h1.trans g1, pyStrLe_trans h2 g2⟩

theorem le2_iff_le3 (a b : MonthEntry) (hk : keyLe a.1 b.1) : (entryLe2 a b ↔ entryLe3 a b) := by
  unfold entryLe2 entryLe3
  constructor
  · rintro (h | ⟨h1, h2⟩)
    · exact Or.inl h
    · refine Or.inr ⟨h1, ?_⟩
      rcases lt_or_eq_of_le h2 with h3 | h3
      · exact Or.inl h3
      · refine Or.inr ⟨h3.symm, ?_⟩
        unfold keyLe at hk
        rcases hk with hk | ⟨_, hk2⟩
        · exact absurd hk (by rw [h1]; exact pyStrLt_irrefl _)
        · exact hk2
  · rintro (h | ⟨h1, h2⟩)
    · exact Or.inl h
    · refine Or.inr ⟨h1, ?_⟩
      rcases h2 with h2 | ⟨h2, _⟩
      · exact le_of_lt h2
      · exact le_of_eq h2.symm

theorem orderedInsert_le2_eq_le3 (x : MonthEntry) (m : List MonthEntry)
    (h : ∀ y ∈ m, keyLe x.1 y.1) :
    List.orderedInsert entryLe2 x m = List.orderedInsert entryLe3 x m := by
  induction m with
  | nil => rfl
  | cons y rest ih =>
    have hxy := le2_iff_le3 x y (h y (List.mem_cons_self y rest))
    by_cases h2 : entryLe2 x y
    · simp [List.orderedInsert, h2, hxy.mp h2]
    · have h3 : ¬ entryLe3 x y := fun hc => h2 (hxy.mpr hc)
      simp only [List.orderedInsert, if_neg h2, if_neg h3]
      rw [ih (fun z hz => h z (List.mem_cons_of_mem y hz))]

theorem insertionSort_le2_eq_le3 (l : List MonthEntry)
    (h : List.Pairwise (fun a b : MonthEntry => keyLe a.1 b.1) l) :
    List.insertionSort entryLe2 l = List.insertionSort entryLe3 l := by
  induction l with
  | nil => rfl
  | cons x rest ih =>
    simp only [List.insertionSort]
    rw [ih h.of_cons]
    apply orderedInsert_le2_eq_le3
    intro y hy
    exact (List.pairwise_cons.mp h).1 y ((List.perm_insertionSort entryLe3 rest).mem_iff.mp hy)

theorem rankLe_iff_le3 (a b : MonthEntry) (ym : String) (ha : a.1.1 = ym) (hb : b.1.1 = ym) :
    (rankLe a b ↔ entryLe3 a b) := by
  unfold rankLe entryLe3
  constructor
  · intro h
    exact Or.inr ⟨by rw [ha, hb], h⟩
  · rintro (h | ⟨_, h2⟩)
    · exact absurd h (by rw [ha, hb]; exact pyStrLt_irrefl _)
    · exact h2

theorem filter_sort3_eq_periodRanking (rows : List JoinedRow) (ym : String) :
    (List.insertionSort entryLe3 (groupCounts rows)).filter (fun e => decide (e.1.1 = ym))
      = periodRanking rows ym := by
  haveI : IsTotal MonthEntry entryLe3 := ⟨entryLe3_total⟩
  haveI : IsTrans MonthEntry entryLe3 := ⟨fun a b c => entryLe3_trans a b c⟩
  haveI : IsAntisymm MonthEntry entryLe3 := ⟨entryLe3_antisymm⟩
  haveI : IsTotal MonthEntry rankLe := ⟨rankLe_total⟩
  haveI : IsTrans MonthEntry rankLe := ⟨fun a b c => rankLe_trans a b c⟩
  apply List.eq_of_perm_of_sorted (r := entryLe3)
  · have p1 :=
      (List.perm_insertionSort entryLe3 (groupCounts rows)).filter
        (fun e => decide (e.1.1 = ym))
    have p2 := List.perm_insertionSort rankLe
      ((groupCounts rows).filter (fun e => decide (e.1.1 = ym)))
    exact p1.trans p2.symm
  · exact List.Pairwise.filter _ (List.sorted_insertionSort entryLe3 _)
  · have hs := List.sorted_insertionSort rankLe
      ((groupCounts rows).filter (fun e => decide (e.1.1 = ym)))
    apply List.Pairwise.imp_of_mem ?_ hs
    intro a b ha hb hr
    have ha2 := (List.perm_insertionSort rankLe _).mem_iff.mp ha
    have hb2 := (List.perm_insertionSort rankLe _).mem_iff.mp hb
    have hpa : a.1.1 = ym := of_decide_eq_true (List.mem_filter.mp ha2).2
    have hpb : b.1.1 = ym := of_decide_eq_true (List.mem_filter.mp hb2).2
    exact (rankLe_iff_le3 a b ym hpa hpb).mp hr

theorem groupHeadAux_filter (n : Nat) (ym : String) (l : List MonthEntry) :
    ∀ seen : String → Nat,
    (groupHeadAux n seen l).filter (fun e => decide (e.1.1 = ym))
      = (l.filter (fun e => decide (e.1.1 = ym))).take (n - seen ym) := by
  induction l with
  | nil =>
    intro seen
    simp [groupHeadAux]
  | cons e rest ih =>
    intro seen
    by_cases hym : e.1.1 = ym
    · have hif : (if ym = e.1.1 then seen e.1.1 + 1 else seen ym) = seen ym + 1 := by
        rw [if_pos hym.symm, hym]
      by_cases hc : seen e.1.1 < n
      · simp only [groupHeadAux, if_pos hc]
        rw [List.filter_cons_of_pos (by simp [hym]), List.filter_cons_of_pos (by simp [hym])]
        rw [ih _, hif]
        have hlt : seen ym < n := by
          rw [← hym]
          exact hc
        obtain ⟨k, hk⟩ : ∃ k, n - seen ym = k + 1 := ⟨n - seen ym - 1, by omega⟩
        rw [hk, List.take_succ_cons]
        have hk2 : n - (seen ym + 1) = k := by omega
        rw [hk2]
      · simp only [groupHeadAux, if_neg hc]
        rw [List.filter_cons_of_pos (by simp [hym])]
        rw [ih _, hif]
        have hge : n ≤ seen ym := by
          rw [← hym]
          exact Nat.le_of_not_lt hc
        have h0 : n - (seen ym + 1) = 0 := by omega
        have h1 : n - seen ym = 0 := by omega
        rw [h0, h1]
        simp
    · have hif : (if ym = e.1.1 then seen e.1.1 + 1 else seen ym) = seen ym := by
        rw [if_neg (fun hc : ym = e.1.1 => hym hc.symm)]
      by_cases hc : seen e.1.1 < n
      · simp only [groupHeadAux, if_pos hc]
        rw [List.filter_cons_of_neg (by simp [hym]), List.filter_cons_of_neg (by simp [hym])]
        rw [ih _, hif]
      · simp only [groupHeadAux, if_neg hc]
        rw [List.filter_cons_of_neg (by simp [hym])]
        rw [ih _, hif]

/-- C4: `get_top_senders_by_month` restricted to any period equals the
first N entries of that period's ranking (its senders with their message
counts, sorted descending by count with ties in the stable
sender-ascending order the grouped table provides); every ranking entry
carries its period and its exact message count, every (period, sender)
key occurring in the table appears in the ranking, the ranking is sorted
descending by count, and an entry ranked at position N or later in its
period contributes no row to the output. -/
theorem claim_C4_top_senders (rows : List JoinedRow) (N : Nat) (ym : String) :
    ((get_top_senders_by_month rows N).filter (fun e => decide (e.1.1 = ym))
        = (periodRanking rows ym).take N)
    ∧ (∀ e ∈ periodRanking rows ym,
        e.1.1 = ym ∧ e.2 = (aggKeys rows).count e.1 ∧ 0 < e.2)
    ∧ (∀ s : String, (ym, s) ∈ aggKeys rows →
        ((ym, s), (aggKeys rows).count (ym, s)) ∈ periodRanking rows ym)
    ∧ List.Sorted rankLe (periodRanking rows ym)
    ∧ (∀ e ∈ (periodRanking rows ym).drop N, e ∉ get_top_senders_by_month rows N) := by
  haveI : IsTotal MonthEntry rankLe := ⟨rankLe_total⟩
  haveI : IsTrans MonthEntry rankLe := ⟨fun a b c => rankLe_trans a b c⟩
  have hsort3 : sorted_data rows = List.insertionSort entryLe3 (groupCounts rows) := by
    unfold sorted_data
    exact insertionSort_le2_eq_le3 _ (groupCounts_key_sorted rows)
  have hmain : (get_top_senders_by_month rows N).filter (fun e => decide (e.1.1 = ym))
      = (periodRanking rows ym).take N := by
    unfold get_top_senders_by_month
    rw [groupHeadAux_filter N ym (sorted_data rows) (fun _ => 0), hsort3,
      filter_sort3_eq_periodRanking, Nat.sub_zero]
  have hmem : ∀ e ∈ periodRanking rows ym,
      e.1.1 = ym ∧ e.2 = (aggKeys rows).count e.1 ∧ 0 < e.2 := by
    intro e he
    have he2 : e ∈ (groupCounts rows).filter (fun x => decide (x.1.1 = ym)) :=
      (List.perm_insertionSort rankLe _).mem_iff.mp he
    have he3 := List.mem_filter.mp he2
    have hgc := mem_groupCounts rows e he3.1
    exact ⟨of_decide_eq_true he3.2, hgc.1, hgc.2.1⟩
  refine ⟨hmain, hmem, ?_, ?_, ?_⟩
  · intro s hs
    have h1 := groupCounts_complete rows (ym, s) hs
    have h2 : ((ym, s), (aggKeys rows).count (ym, s))
        ∈ (groupCounts rows).filter (fun x => decide (x.1.1 = ym)) :=
      List.mem_filter.mpr ⟨h1, by simp⟩
    exact (List.perm_insertionSort rankLe _).mem_iff.mpr h2
  · exact List.sorted_insertionSort rankLe _
  · intro e he hout
    have hin : e ∈ periodRanking rows ym := List.drop_subset N _ he
    have hp : e.1.1 = ym := (hmem e hin).1
    have hfe : e ∈ (get_top_senders_by_month rows N).filter (fun x => decide (x.1.1 = ym)) :=
      List.mem_filter.mpr ⟨hout, by simp [hp]⟩
    rw [hmain] at hfe
    have hnd : (periodRanking rows ym).Nodup := by
      unfold periodRanking
      exact ((List.perm_insertionSort rankLe _).nodup_iff).mpr
        ((groupCounts_nodup rows).filter _)
    have hsplit := List.take_append_drop N (periodRanking rows ym)
    have hdisj := (List.nodup_append.mp (by rw [hsplit]; exact hnd)).2.2
    exact hdisj hfe he

/-- Witness for C4 at a concrete table (period 2022-01: A has 2
messages, B and C one each; period 2022-02: B has one; N = 2): the
output's 2022-01 entries are the top two of the ranking, A's entry
carries its count, C's entry is in the ranking, the ranking is sorted,
and C (ranked third) contributes no output row. -/
theorem claim_C4_witness :
    ((get_top_senders_by_month exT4 2).filter (fun e => decide (e.1.1 = ("2022-01")))
        = (periodRanking exT4 ("2022-01")).take 2)
    ∧ (((("2022-01"), ("A")), 2).1.1 = ("2022-01")
        ∧ ((("2022-01"), ("A")), 2).2 = (aggKeys exT4).count ((("2022-01"), ("A")), 2).1
        ∧ 0 < ((("2022-01"), ("A")), 2).2)
    ∧ ((("2022-01"), ("C")), (aggKeys exT4).count (("2022-01"), ("C")))
        ∈ periodRanking exT4 ("2022-01")
    ∧ List.Sorted rankLe (periodRanking exT4 ("2022-01"))
    ∧ ((("2022-01"), ("C")), 1) ∉ get_top_senders_by_month exT4 2 :=
  ⟨(claim_C4_top_senders exT4 2 ("2022-01")).1,
    (claim_C4_top_senders exT4 2 ("2022-01")).2.1 _ (by decide),
    (claim_C4_top_senders exT4 2 ("2022-01")).2.2.1 ("C") (by decide),
    (claim_C4_top_senders exT4 2 ("2022-01")).2.2.2.1,
    (claim_C4_top_senders exT4 2 ("2022-01")).2.2.2.2 _ (by decide)⟩
